import Mathlib

/-!
Shallow embedding of src/main/lsp/requests/sorbet_workspace_edit.cc
(the LSP workspace-edit synchronization engine of the Sorbet language
server): reading files with a not-found fallback, collecting pending
per-file updates from open/change/close/filesystem events, applying
incremental text edits, and committing the pending map as an
epoch-tagged batch.

Modelling conventions: buffers are Lean Strings and offsets index their
character lists (the concrete inputs considered are ASCII, where C++
byte offsets and character offsets coincide); the unordered map keyed by
path is an association list whose insert overwrites in place or appends;
C++ exceptions escaping a handler are modelled with Except; external
collaborators (the filesystem, ignore-pattern matching, URI-to-path
translation, the typechecking pipeline) are function parameters, as the
spec declares them out of scope.
-/

set_option autoImplicit false

namespace SorbetSync

/-- One pending update for a path within a batch, mirroring
LSPLoop::SorbetWorkspaceFileUpdate. C++ value-initialization (via
operator[] on the map) yields empty contents and false flags. -/
structure SorbetWorkspaceFileUpdate where
  contents : String
  newlyOpened : Bool
  newlyClosed : Bool
deriving Repr, DecidableEq

/-- The entry produced by C++ value-initialization when operator[]
touches a missing key: empty contents, both flags false. -/
def SorbetWorkspaceFileUpdate.defaultEntry : SorbetWorkspaceFileUpdate :=
  { contents := "", newlyOpened := false, newlyClosed := false }

/-- The per-batch pending map, UnorderedMap of path to update.
Represented as an association list; iteration order of the C++
container is unspecified, and no theorem below depends on it. -/
abbrev UpdatesMap := List (String × SorbetWorkspaceFileUpdate)

/-- Lookup in the pending map (UnorderedMap::find). -/
def UpdatesMap.find? : UpdatesMap → String → Option SorbetWorkspaceFileUpdate
  | [], _ => none
  | (k, v) :: rest, key => if k = key then some v else UpdatesMap.find? rest key

/-- Write through operator[]: overwrite the entry in place when the key
exists, append a new entry otherwise. -/
def UpdatesMap.insert : UpdatesMap → String → SorbetWorkspaceFileUpdate → UpdatesMap
  | [], key, v => [(key, v)]
  | (k, w) :: rest, key, v =>
      if k = key then (key, v) :: rest else (k, w) :: UpdatesMap.insert rest key v

/-- The pipeline's committed view of the workspace: findFileByPath
composed with File::source, none when no file exists at the path. The
same shape stands for the FileSystem collaborator (none models
FileNotFoundException). -/
def GlobalState := String → Option String

/-- Configuration and collaborators held by LSPLoop: the workspace root
uri and path, ignore-pattern matching (FileOps::isFileIgnored with the
options fixed), URI-to-local-path translation, the filesystem, and the
persistent set of files open in the editor. -/
structure LSPConfig where
  rootUri : String
  rootPath : String
  isIgnored : String → Bool
  remoteName2Local : String → String
  fs : GlobalState
  openFiles : String → Bool

/-- The absl::StartsWith check used by every handler for scope. -/
def startsWith (s pre : String) : Bool :=
  pre.data.isPrefixOf s.data

/-- readFile: delegate to the filesystem, and when the file is not
found act as if it is completely empty instead of raising. -/
def readFile (path : String) (fs : GlobalState) : String :=
  match fs path with
  | some text => text
  | none => ""

/-- LSPLoop::getFileContents: the pending entry's contents when the
path has one, otherwise the committed file's source when the pipeline
state has the file, otherwise the empty string. -/
def getFileContents (updates : UpdatesMap) (initialGS : GlobalState) (path : String) : String :=
  match updates.find? path with
  | some u => u.contents
  | none =>
      match initialGS path with
      | some source => source
      | none => ""

/-- A zero-based line/character position as carried by LSP events. -/
structure Position where
  line : Nat
  character : Nat
deriving Repr, DecidableEq

/-- An LSP range; endPos stands for the field named end in the source. -/
structure Range where
  start : Position
  endPos : Position
deriving Repr, DecidableEq

/-- One content change of a DidChange event: an optional range and the
replacement text (range absent means replace the whole buffer). -/
structure TextDocumentContentChangeEvent where
  range : Option Range
  text : String
deriving Repr, DecidableEq

/-- Parameters of a textDocument/didChange notification. -/
structure DidChangeTextDocumentParams where
  uri : String
  contentChanges : List TextDocumentContentChangeEvent
deriving Repr, DecidableEq

/-- Parameters of a textDocument/didOpen notification. -/
structure DidOpenTextDocumentParams where
  uri : String
  text : String
deriving Repr, DecidableEq

/-- Parameters of a textDocument/didClose notification. -/
structure DidCloseTextDocumentParams where
  uri : String
deriving Repr, DecidableEq

/-- A Watchman filesystem notification: the changed paths, relative to
the workspace root. -/
structure WatchmanQueryResponse where
  files : List String
deriving Repr, DecidableEq

/-- Offsets just after each newline character of the list, counting
from position i. Helper for the line-break table of a file. -/
def newlineFollowers : List Char → Nat → List Nat
  | [], _ => []
  | c :: cs, i =>
      if c = '\n' then (i + 1) :: newlineFollowers cs (i + 1)
      else newlineFollowers cs (i + 1)

/-- Modelled from the spec: the line-break scan of core::File, which is
not part of this source file. Offset at which each line of the buffer
starts: line 1 starts at offset 0, and each subsequent line starts just
after a newline character. -/
def lineStarts (s : String) : List Nat :=
  0 :: newlineFollowers s.data 0

/-- Modelled from the spec: core::Loc::pos2Offset is not part of this
source file. Translates a one-based (line, column) pair into an offset
in the buffer: the start offset of the line plus (column - 1). A line
number beyond the table (out of range in the C++ vector) is clamped to
the buffer length; no theorem below exercises that case. -/
def pos2Offset (s : String) (line column : Nat) : Nat :=
  (lineStarts s).getD (line - 1) s.data.length + (column - 1)

/-- std::basic_string::replace(pos, count, str): out_of_range when pos
exceeds the length, otherwise erase min(count, length - pos) characters
at pos and put str there. -/
def stringReplace (s : String) (pos count : Nat) (t : String) : Except Unit String :=
  if s.data.length < pos then Except.error ()
  else Except.ok (String.mk (s.data.take pos ++ t.data ++ s.data.drop (pos + min count (s.data.length - pos))))

/-- One iteration of the contentChanges loop of
preprocessSorbetWorkspaceEdit(DidChangeTextDocumentParams): with a
range, shift the zero-based endpoints to one-based, translate both to
offsets (u4 values, hence the reduction mod 2 ^ 32, with the count
computed by u4 subtraction), and splice the replacement; without a
range, the replacement becomes the whole buffer. -/
def applyChange (fileContents : String) (change : TextDocumentContentChangeEvent) :
    Except Unit String :=
  match change.range with
  | some range =>
      let startOffset := pos2Offset fileContents (range.start.line + 1) (range.start.character + 1) % 2 ^ 32
      let endOffset := pos2Offset fileContents (range.endPos.line + 1) (range.endPos.character + 1) % 2 ^ 32
      stringReplace fileContents startOffset ((endOffset + 2 ^ 32 - startOffset) % 2 ^ 32) change.text
  | none => Except.ok change.text

/-- The contentChanges loop: fold each change through applyChange in
event order over the progressively-updated buffer, stopping at the
first failure (the C++ exception escaping the loop). -/
def applyChanges (fileContents : String) : List TextDocumentContentChangeEvent → Except Unit String
  | [] => Except.ok fileContents
  | change :: rest =>
      match applyChange fileContents change with
      | Except.ok s => applyChanges s rest
      | Except.error e => Except.error e

/-- preprocessSorbetWorkspaceEdit(DidChangeTextDocumentParams): for an
in-scope, non-ignored uri, resolve the base buffer with
getFileContents, fold the changes, and store the result as the path's
contents, preserving the opened/closed flags (creating a
value-initialized entry when none exists). -/
def preprocessChange (cfg : LSPConfig) (initialGS : GlobalState)
    (changeParams : DidChangeTextDocumentParams) (updates : UpdatesMap) :
    Except Unit UpdatesMap :=
  if startsWith changeParams.uri cfg.rootUri then
    let localPath := cfg.remoteName2Local changeParams.uri
    if cfg.isIgnored localPath then Except.ok updates
    else
      match applyChanges (getFileContents updates initialGS localPath) changeParams.contentChanges with
      | Except.ok fileContents =>
          let entry := (updates.find? localPath).getD SorbetWorkspaceFileUpdate.defaultEntry
          Except.ok (updates.insert localPath { entry with contents := fileContents })
      | Except.error e => Except.error e
  else Except.ok updates

/-- preprocessSorbetWorkspaceEdit(DidOpenTextDocumentParams): for an
in-scope, non-ignored uri, overwrite the entry with the opened text,
newlyOpened true and newlyClosed false. -/
def preprocessOpen (cfg : LSPConfig) (openParams : DidOpenTextDocumentParams)
    (updates : UpdatesMap) : UpdatesMap :=
  if startsWith openParams.uri cfg.rootUri then
    let localPath := cfg.remoteName2Local openParams.uri
    if cfg.isIgnored localPath then updates
    else updates.insert localPath
      { contents := openParams.text, newlyOpened := true, newlyClosed := false }
  else updates

/-- preprocessSorbetWorkspaceEdit(DidCloseTextDocumentParams): for an
in-scope, non-ignored uri, overwrite the entry with the contents of the
file on disk, newlyOpened false and newlyClosed true. -/
def preprocessClose (cfg : LSPConfig) (closeParams : DidCloseTextDocumentParams)
    (updates : UpdatesMap) : UpdatesMap :=
  if startsWith closeParams.uri cfg.rootUri then
    let localPath := cfg.remoteName2Local closeParams.uri
    if cfg.isIgnored localPath then updates
    else updates.insert localPath
      { contents := readFile localPath cfg.fs, newlyOpened := false, newlyClosed := true }
  else updates

/-- One iteration of the Watchman loop: build the local path, skip
ignored paths, then take a reference into the map with operator[]
(which value-initializes a missing entry), and refresh the contents
from disk unless the file is open in the editor. -/
def watchmanStep (cfg : LSPConfig) (updates : UpdatesMap) (file : String) : UpdatesMap :=
  let localPath := cfg.rootPath ++ "/" ++ file
  if cfg.isIgnored localPath then updates
  else
    let entry := (updates.find? localPath).getD SorbetWorkspaceFileUpdate.defaultEntry
    let updates := updates.insert localPath entry
    let isFileOpenInEditor := entry.newlyOpened || (cfg.openFiles localPath && !entry.newlyClosed)
    if !isFileOpenInEditor then
      updates.insert localPath { entry with contents := readFile localPath cfg.fs }
    else updates

/-- preprocessSorbetWorkspaceEdit(WatchmanQueryResponse): fold the
changed files through watchmanStep in order. -/
def preprocessWatchman (cfg : LSPConfig) (queryResponse : WatchmanQueryResponse)
    (updates : UpdatesMap) : UpdatesMap :=
  queryResponse.files.foldl (watchmanStep cfg) updates

/-- The file kind attached to every materialized file value. -/
inductive FileType
  | Normal
deriving Repr, DecidableEq

/-- A materialized core::File value: path, contents, kind. -/
structure CoreFile where
  path : String
  contents : String
  type : FileType
deriving Repr, DecidableEq

/-- The epoch-tagged batch handed to the typechecking pipeline. -/
structure FileUpdates where
  updateEpoch : Int
  updatedFiles : List CoreFile
  openedFiles : List String
  closedFiles : List String
deriving Repr, DecidableEq

/-- The result of commitSorbetWorkspaceEdits: the pipeline state, and
the batch passed to runTypechecking when one was (none on the
empty-batch path, which constructs TypecheckRun(gs) directly). -/
structure TypecheckRun where
  gs : GlobalState
  committed : Option FileUpdates

/-- The body of the commit loop: push the path onto closedFiles when
newlyClosed, onto openedFiles when newlyOpened, and the materialized
file value onto updatedFiles unconditionally. -/
def commitStep (fileUpdates : FileUpdates) (update : String × SorbetWorkspaceFileUpdate) :
    FileUpdates :=
  let file : CoreFile := { path := update.1, contents := update.2.contents, type := FileType.Normal }
  let fileUpdates :=
    if update.2.newlyClosed then
      { fileUpdates with closedFiles := fileUpdates.closedFiles ++ [file.path] }
    else fileUpdates
  let fileUpdates :=
    if update.2.newlyOpened then
      { fileUpdates with openedFiles := fileUpdates.openedFiles ++ [file.path] }
    else fileUpdates
  { fileUpdates with updatedFiles := fileUpdates.updatedFiles ++ [file] }

/-- The FileUpdates value built from a non-empty pending map. -/
def buildFileUpdates (msgEpoch : Int) (updates : UpdatesMap) : FileUpdates :=
  updates.foldl commitStep
    { updateEpoch := msgEpoch, updatedFiles := [], openedFiles := [], closedFiles := [] }

/-- LSPLoop::commitSorbetWorkspaceEdits: on a non-empty pending map,
build the batch and invoke runTypechecking (passed here as the external
pipeline primitive); on an empty map, return TypecheckRun(gs) without
invoking it. -/
def commitSorbetWorkspaceEdits (runTypechecking : GlobalState → FileUpdates → TypecheckRun)
    (gs : GlobalState) (msgEpoch : Int) (updates : UpdatesMap) : TypecheckRun :=
  if updates.isEmpty then { gs := gs, committed := none }
  else runTypechecking gs (buildFileUpdates msgEpoch updates)

/-- The tagged union of workspace edits drained by
handleSorbetWorkspaceEdits. -/
inductive SorbetWorkspaceEdit
  | editorOpen (p : DidOpenTextDocumentParams)
  | editorChange (p : DidChangeTextDocumentParams)
  | editorClose (p : DidCloseTextDocumentParams)
  | fileSystem (q : WatchmanQueryResponse)
deriving Repr, DecidableEq

/-- Dispatch of one edit to its preprocess handler (the switch in
handleSorbetWorkspaceEdits). -/
def preprocessEdit (cfg : LSPConfig) (initialGS : GlobalState) (updates : UpdatesMap) :
    SorbetWorkspaceEdit → Except Unit UpdatesMap
  | SorbetWorkspaceEdit.editorOpen p => Except.ok (preprocessOpen cfg p updates)
  | SorbetWorkspaceEdit.editorChange p => preprocessChange cfg initialGS p updates
  | SorbetWorkspaceEdit.editorClose p => Except.ok (preprocessClose cfg p updates)
  | SorbetWorkspaceEdit.fileSystem q => Except.ok (preprocessWatchman cfg q updates)

/-- Drain a sequence of edits into the shared pending map, stopping at
the first failure. -/
def preprocessEdits (cfg : LSPConfig) (initialGS : GlobalState) (updates : UpdatesMap) :
    List SorbetWorkspaceEdit → Except Unit UpdatesMap
  | [] => Except.ok updates
  | e :: rest =>
      match preprocessEdit cfg initialGS updates e with
      | Except.ok m => preprocessEdits cfg initialGS m rest
      | Except.error err => Except.error err

/-- LSPLoop::handleSorbetWorkspaceEdits: drain all edits into a fresh
pending map, then commit. The preprocess handlers consult the member
initialGS; the commit moves the gs parameter. -/
def handleSorbetWorkspaceEdits (cfg : LSPConfig)
    (runTypechecking : GlobalState → FileUpdates → TypecheckRun) (initialGS gs : GlobalState)
    (msgEpoch : Int) (edits : List SorbetWorkspaceEdit) : Except Unit TypecheckRun :=
  match preprocessEdits cfg initialGS [] edits with
  | Except.ok updates => Except.ok (commitSorbetWorkspaceEdits runTypechecking gs msgEpoch updates)
  | Except.error e => Except.error e

/-- The paths of a list of materialized file values. -/
def pathsOf (files : List CoreFile) : List String := files.map CoreFile.path

/-- An edit every handler rejects as out of scope or ignored: its uri
does not start with the root uri, or its local path matches an ignore
rule (for a filesystem event, every changed file does). -/
def editFiltered (cfg : LSPConfig) : SorbetWorkspaceEdit → Prop
  | SorbetWorkspaceEdit.editorOpen p =>
      startsWith p.uri cfg.rootUri = false ∨ cfg.isIgnored (cfg.remoteName2Local p.uri) = true
  | SorbetWorkspaceEdit.editorChange p =>
      startsWith p.uri cfg.rootUri = false ∨ cfg.isIgnored (cfg.remoteName2Local p.uri) = true
  | SorbetWorkspaceEdit.editorClose p =>
      startsWith p.uri cfg.rootUri = false ∨ cfg.isIgnored (cfg.remoteName2Local p.uri) = true
  | SorbetWorkspaceEdit.fileSystem q =>
      ∀ f ∈ q.files, cfg.isIgnored (cfg.rootPath ++ "/" ++ f) = true

/-- The edit resolves to (or, for a filesystem event, lists) the given
local path, whether or not the handler finally acts on it. -/
def touchesPath (cfg : LSPConfig) (path : String) : SorbetWorkspaceEdit → Prop
  | SorbetWorkspaceEdit.editorOpen p => cfg.remoteName2Local p.uri = path
  | SorbetWorkspaceEdit.editorChange p => cfg.remoteName2Local p.uri = path
  | SorbetWorkspaceEdit.editorClose p => cfg.remoteName2Local p.uri = path
  | SorbetWorkspaceEdit.fileSystem q => ∃ f ∈ q.files, cfg.rootPath ++ "/" ++ f = path

/-- A concrete filesystem for witnesses: one file on disk. -/
def sampleFs : GlobalState := fun p => if p = "r/a.rb" then some "disk" else none

/-- A concrete configuration for witnesses: nothing ignored, uris of
the form u:path, one file on disk, nothing open in the editor. -/
def cfgDisk : LSPConfig :=
  { rootUri := "u:", rootPath := "r", isIgnored := fun _ => false,
    remoteName2Local := fun u => String.mk (u.data.drop 2), fs := sampleFs,
    openFiles := fun _ => false }

/-- The same configuration with the disk file open in the editor. -/
def cfgOpenFile : LSPConfig :=
  { cfgDisk with openFiles := fun p => p == "r/a.rb" }

/-! Association-list lemmas for the pending map. -/

theorem find?_insert_self (m : UpdatesMap) (key : String) (v : SorbetWorkspaceFileUpdate) :
    (m.insert key v).find? key = some v := by
  induction m with
  | nil => simp [UpdatesMap.insert, UpdatesMap.find?]
  | cons hd tl ih =>
      obtain ⟨k, w⟩ := hd
      by_cases h : k = key
      · simp [UpdatesMap.insert, UpdatesMap.find?, h]
      · simp [UpdatesMap.insert, UpdatesMap.find?, h, ih]

theorem find?_insert_ne (m : UpdatesMap) (key p : String) (v : SorbetWorkspaceFileUpdate)
    (h : key ≠ p) : (m.insert key v).find? p = m.find? p := by
  induction m with
  | nil => simp [UpdatesMap.insert, UpdatesMap.find?, h]
  | cons hd tl ih =>
      obtain ⟨k, w⟩ := hd
      by_cases hk : k = key
      · subst hk
        simp [UpdatesMap.insert, UpdatesMap.find?, h]
      · simp [UpdatesMap.insert, UpdatesMap.find?, hk, ih]

theorem insert_insert_self (m : UpdatesMap) (key : String) (v w : SorbetWorkspaceFileUpdate) :
    (m.insert key v).insert key w = m.insert key w := by
  induction m with
  | nil => simp [UpdatesMap.insert]
  | cons hd tl ih =>
      obtain ⟨k, u⟩ := hd
      by_cases h : k = key
      · simp [UpdatesMap.insert, h]
      · simp [UpdatesMap.insert, h, ih]

/-- Claim C7: patching the buffer hello-newline-world at the range with
zero-based start (0,5) and end (1,0) with a newline-bang-newline
replacement yields hello, newline, bang, newline, world: the start
endpoint translates to offset 5, the end endpoint to offset 6, and the
replacement is spliced into that window. -/
theorem patch_hello_world_example :
    applyChange "hello\nworld"
        { range := some { start := { line := 0, character := 5 },
                          endPos := { line := 1, character := 0 } },
          text := "\n!\n" } = Except.ok "hello\n!\nworld" ∧
    pos2Offset "hello\nworld" (0 + 1) (5 + 1) = 5 ∧
    pos2Offset "hello\nworld" (1 + 1) (0 + 1) = 6 := by
  refine ⟨rfl, by decide, by decide⟩

/-- Claim C9: a disk read of a path the filesystem does not have
returns the empty string instead of an error; consequently a close
event on a missing file stores an entry with empty contents (flags
false/true), and an unprotected filesystem event on a missing,
previously untouched file stores an entry with empty contents (flags
false/false). -/
theorem readFile_missing_empty (fs : GlobalState) (path : String) (cfg : LSPConfig)
    (closeParams : DidCloseTextDocumentParams) (updates : UpdatesMap) (watchFile : String)
    (hmiss : fs path = none)
    (hscope : startsWith closeParams.uri cfg.rootUri = true)
    (hclosePath : cfg.remoteName2Local closeParams.uri = path)
    (hign : cfg.isIgnored path = false)
    (hcfgMiss : cfg.fs path = none)
    (hwatchPath : cfg.rootPath ++ "/" ++ watchFile = path)
    (hnoEntry : updates.find? path = none)
    (hnotOpen : cfg.openFiles path = false) :
    readFile path fs = "" ∧
    (preprocessClose cfg closeParams updates).find? path =
      some { contents := "", newlyOpened := false, newlyClosed := true } ∧
    (watchmanStep cfg updates watchFile).find? path =
      some { contents := "", newlyOpened := false, newlyClosed := false } := by
  have hread : readFile path fs = "" := by simp [readFile, hmiss]
  refine ⟨hread, ?_, ?_⟩
  · simp only [preprocessClose, hscope, hclosePath, hign, if_true, if_false, Bool.false_eq_true,
      ite_false, ite_true]
    rw [show readFile path cfg.fs = "" by simp [readFile, hcfgMiss]]
    exact find?_insert_self updates path _
  · simp only [watchmanStep, hwatchPath, hign, Bool.false_eq_true, ite_false]
    simp only [hnoEntry, Option.getD_none]
    simp only [SorbetWorkspaceFileUpdate.defaultEntry, hnotOpen, Bool.false_and, Bool.or_false,
      Bool.not_false, if_true]
    rw [show readFile path cfg.fs = "" by simp [readFile, hcfgMiss]]
    rw [insert_insert_self]
    exact find?_insert_self updates path _

/-- Witness for claim C9 at a concrete configuration whose filesystem
holds nothing. -/
theorem readFile_missing_empty_witness :
    readFile "r/a.rb" (fun _ => none) = "" ∧
    (preprocessClose
        { rootUri := "u:", rootPath := "r", isIgnored := fun _ => false,
          remoteName2Local := fun u => String.mk (u.data.drop 2), fs := fun _ => none,
          openFiles := fun _ => false }
        { uri := "u:r/a.rb" } []).find? "r/a.rb" =
      some { contents := "", newlyOpened := false, newlyClosed := true } ∧
    (watchmanStep
        { rootUri := "u:", rootPath := "r", isIgnored := fun _ => false,
          remoteName2Local := fun u => String.mk (u.data.drop 2), fs := fun _ => none,
          openFiles := fun _ => false } [] "a.rb").find? "r/a.rb" =
      some { contents := "", newlyOpened := false, newlyClosed := false } :=
  readFile_missing_empty (fun _ => none) "r/a.rb"
    { rootUri := "u:", rootPath := "r", isIgnored := fun _ => false,
      remoteName2Local := fun u => String.mk (u.data.drop 2), fs := fun _ => none,
      openFiles := fun _ => false }
    { uri := "u:r/a.rb" } [] "a.rb" rfl (by decide) (by decide) rfl rfl (by decide) rfl rfl

/-- Claim C8: processing the identical open event twice in the same
batch yields the same pending map as processing it once, and (for an
in-scope, non-ignored uri) the entry holds the opened text with
newlyOpened true and newlyClosed false. -/
theorem open_event_idempotent (cfg : LSPConfig) (openParams : DidOpenTextDocumentParams)
    (updates : UpdatesMap) :
    preprocessOpen cfg openParams (preprocessOpen cfg openParams updates) =
      preprocessOpen cfg openParams updates ∧
    (startsWith openParams.uri cfg.rootUri = true →
      cfg.isIgnored (cfg.remoteName2Local openParams.uri) = false →
      (preprocessOpen cfg openParams updates).find? (cfg.remoteName2Local openParams.uri) =
        some { contents := openParams.text, newlyOpened := true, newlyClosed := false }) := by
  constructor
  · cases hs : startsWith openParams.uri cfg.rootUri
    · simp [preprocessOpen, hs]
    · cases hi : cfg.isIgnored (cfg.remoteName2Local openParams.uri)
      · simp only [preprocessOpen, hs, hi, Bool.false_eq_true, ite_false, ite_true]
        exact insert_insert_self updates _ _ _
      · simp [preprocessOpen, hs, hi]
  · intro hscope hign
    simp only [preprocessOpen, hscope, hign, Bool.false_eq_true, ite_false, ite_true]
    exact find?_insert_self updates _ _

/-- Witness for claim C8 at a concrete open event. -/
theorem open_event_idempotent_witness :
    preprocessOpen
        { rootUri := "u:", rootPath := "r", isIgnored := fun _ => false,
          remoteName2Local := fun u => String.mk (u.data.drop 2), fs := fun _ => none,
          openFiles := fun _ => false }
        { uri := "u:r/a.rb", text := "X" }
        (preprocessOpen
          { rootUri := "u:", rootPath := "r", isIgnored := fun _ => false,
            remoteName2Local := fun u => String.mk (u.data.drop 2), fs := fun _ => none,
            openFiles := fun _ => false }
          { uri := "u:r/a.rb", text := "X" } []) =
      preprocessOpen
        { rootUri := "u:", rootPath := "r", isIgnored := fun _ => false,
          remoteName2Local := fun u => String.mk (u.data.drop 2), fs := fun _ => none,
          openFiles := fun _ => false }
        { uri := "u:r/a.rb", text := "X" } [] ∧
    (preprocessOpen
        { rootUri := "u:", rootPath := "r", isIgnored := fun _ => false,
          remoteName2Local := fun u => String.mk (u.data.drop 2), fs := fun _ => none,
          openFiles := fun _ => false }
        { uri := "u:r/a.rb", text := "X" } []).find? "r/a.rb" =
      some { contents := "X", newlyOpened := true, newlyClosed := false } :=
  ⟨(open_event_idempotent
      { rootUri := "u:", rootPath := "r", isIgnored := fun _ => false,
        remoteName2Local := fun u => String.mk (u.data.drop 2), fs := fun _ => none,
        openFiles := fun _ => false }
      { uri := "u:r/a.rb", text := "X" } []).1,
   (open_event_idempotent
      { rootUri := "u:", rootPath := "r", isIgnored := fun _ => false,
        remoteName2Local := fun u => String.mk (u.data.drop 2), fs := fun _ => none,
        openFiles := fun _ => false }
      { uri := "u:r/a.rb", text := "X" } []).2 (by decide) (by decide)⟩

/-- Claim C4: edits in one change event are applied sequentially, so an
edit preceded by a prefix of edits is resolved against the buffer the
prefix produced; and an edit with no range replaces the whole current
buffer with its replacement text verbatim. -/
theorem edits_applied_sequentially (preChanges postChanges : List TextDocumentContentChangeEvent)
    (c : TextDocumentContentChangeEvent) (s buffer replacement : String)
    (hpre : applyChanges s preChanges = Except.ok buffer) :
    applyChanges s (preChanges ++ c :: postChanges) = applyChanges buffer (c :: postChanges) ∧
    applyChange buffer { range := none, text := replacement } = Except.ok replacement := by
  constructor
  · induction preChanges generalizing s with
    | nil =>
        simp only [applyChanges] at hpre
        cases hpre
        simp
    | cons hd tl ih =>
        simp only [applyChanges] at hpre ⊢
        cases hhd : applyChange s hd with
        | ok s' =>
            rw [hhd] at hpre
            simp only [List.cons_append, applyChanges, hhd]
            exact ih s' hpre
        | error e =>
            rw [hhd] at hpre
            cases hpre
  · rfl

/-- Witness for claim C4: the second edit of a pair is resolved against
the output of the first (here its range is valid only in that output). -/
theorem edits_applied_sequentially_witness :
    applyChanges "hi"
        ([{ range := none, text := "hello\nworld" }] ++
          { range := some { start := { line := 1, character := 0 },
                            endPos := { line := 1, character := 5 } },
            text := "there" } :: []) =
      applyChanges "hello\nworld"
        ({ range := some { start := { line := 1, character := 0 },
                           endPos := { line := 1, character := 5 } },
           text := "there" } :: []) ∧
    applyChange "hello\nworld" { range := none, text := "yo" } = Except.ok "yo" :=
  edits_applied_sequentially [{ range := none, text := "hello\nworld" }] []
    { range := some { start := { line := 1, character := 0 },
                      endPos := { line := 1, character := 5 } },
      text := "there" } "hi" "hello\nworld" "yo" rfl

/-! Field lemmas for the commit loop. -/

theorem pathsOf_append (l l' : List CoreFile) : pathsOf (l ++ l') = pathsOf l ++ pathsOf l' :=
  List.map_append CoreFile.path l l'

theorem commitStep_updatedFiles (acc : FileUpdates) (u : String × SorbetWorkspaceFileUpdate) :
    (commitStep acc u).updatedFiles =
      acc.updatedFiles ++ [{ path := u.1, contents := u.2.contents, type := FileType.Normal }] := by
  simp only [commitStep]
  split <;> split <;> rfl

theorem commitStep_openedFiles (acc : FileUpdates) (u : String × SorbetWorkspaceFileUpdate) :
    (commitStep acc u).openedFiles =
      acc.openedFiles ++ (if u.2.newlyOpened then [u.1] else []) := by
  simp only [commitStep]
  split <;> split <;> simp

theorem commitStep_closedFiles (acc : FileUpdates) (u : String × SorbetWorkspaceFileUpdate) :
    (commitStep acc u).closedFiles =
      acc.closedFiles ++ (if u.2.newlyClosed then [u.1] else []) := by
  simp only [commitStep]
  split <;> split <;> simp

theorem commitFold_subset (updates : UpdatesMap) (acc : FileUpdates)
    (hO : ∀ p, p ∈ acc.openedFiles → p ∈ pathsOf acc.updatedFiles)
    (hC : ∀ p, p ∈ acc.closedFiles → p ∈ pathsOf acc.updatedFiles) :
    (∀ p, p ∈ (updates.foldl commitStep acc).openedFiles →
        p ∈ pathsOf (updates.foldl commitStep acc).updatedFiles) ∧
    (∀ p, p ∈ (updates.foldl commitStep acc).closedFiles →
        p ∈ pathsOf (updates.foldl commitStep acc).updatedFiles) := by
  induction updates generalizing acc with
  | nil => exact ⟨hO, hC⟩
  | cons hd tl ih =>
      simp only [List.foldl_cons]
      apply ih
      · intro p hp
        rw [commitStep_openedFiles] at hp
        rw [commitStep_updatedFiles, pathsOf_append]
        rcases List.mem_append.mp hp with h | h
        · exact List.mem_append_left _ (hO p h)
        · refine List.mem_append_right _ ?_
          cases hop : hd.2.newlyOpened <;> rw [hop] at h
          · simp at h
          · have hpe : p = hd.1 := by simpa using h
            simp [pathsOf, hpe]
      · intro p hp
        rw [commitStep_closedFiles] at hp
        rw [commitStep_updatedFiles, pathsOf_append]
        rcases List.mem_append.mp hp with h | h
        · exact List.mem_append_left _ (hC p h)
        · refine List.mem_append_right _ ?_
          cases hcl : hd.2.newlyClosed <;> rw [hcl] at h
          · simp at h
          · have hpe : p = hd.1 := by simpa using h
            simp [pathsOf, hpe]

/-- Claim C10: in a non-empty committed batch, every path in
openedFiles and every path in closedFiles also appears among the paths
of updatedFiles, because the commit loop pushes a materialized file
value for every pending entry unconditionally. -/
theorem opened_closed_subset_updated (msgEpoch : Int) (updates : UpdatesMap) (p : String)
    (hne : updates ≠ [])
    (h : p ∈ (buildFileUpdates msgEpoch updates).openedFiles ∨
         p ∈ (buildFileUpdates msgEpoch updates).closedFiles) :
    p ∈ pathsOf (buildFileUpdates msgEpoch updates).updatedFiles := by
  have aux := commitFold_subset updates
    { updateEpoch := msgEpoch, updatedFiles := [], openedFiles := [], closedFiles := [] }
    (by intro q hq; simp at hq) (by intro q hq; simp at hq)
  cases h with
  | inl h => exact aux.1 p h
  | inr h => exact aux.2 p h

/-- Witness for claim C10 at a one-entry batch whose entry was both
opened and closed. -/
theorem opened_closed_subset_updated_witness :
    ([("a.rb", { contents := "x", newlyOpened := true, newlyClosed := true })] : UpdatesMap) ≠ [] ∧
    "a.rb" ∈ (buildFileUpdates 1
        [("a.rb", { contents := "x", newlyOpened := true, newlyClosed := true })]).openedFiles ∧
    "a.rb" ∈ pathsOf (buildFileUpdates 1
        [("a.rb", { contents := "x", newlyOpened := true, newlyClosed := true })]).updatedFiles :=
  ⟨by simp, by decide,
    opened_closed_subset_updated 1
      [("a.rb", { contents := "x", newlyOpened := true, newlyClosed := true })] "a.rb"
      (by simp) (Or.inl (by decide))⟩

/-- Claim C3: a change event on an in-scope, non-ignored path resolves
its base buffer as, in priority order, the existing pending entry's
contents, then the committed state's source for the path, then the
empty string; and the stored entry keeps exactly the flags the pending
entry already had (value-initialized false/false when there was none),
its contents being the folded edits applied to that base buffer. -/
theorem change_base_priority_preserves_flags (cfg : LSPConfig) (initialGS : GlobalState)
    (changeParams : DidChangeTextDocumentParams) (updates : UpdatesMap) (localPath : String)
    (hscope : startsWith changeParams.uri cfg.rootUri = true)
    (hpath : cfg.remoteName2Local changeParams.uri = localPath)
    (hign : cfg.isIgnored localPath = false) :
    preprocessChange cfg initialGS changeParams updates =
      (match applyChanges
          (match updates.find? localPath with
           | some entry => entry.contents
           | none =>
               match initialGS localPath with
               | some source => source
               | none => "")
          changeParams.contentChanges with
       | Except.ok fileContents =>
           Except.ok (updates.insert localPath
             { contents := fileContents,
               newlyOpened :=
                 ((updates.find? localPath).getD SorbetWorkspaceFileUpdate.defaultEntry).newlyOpened,
               newlyClosed :=
                 ((updates.find? localPath).getD SorbetWorkspaceFileUpdate.defaultEntry).newlyClosed })
       | Except.error e => Except.error e) := by
  simp only [preprocessChange, hscope, hpath, hign, Bool.false_eq_true, ite_false, ite_true,
    getFileContents]

/-- Witness for claim C3: an existing pending entry supplies the base
buffer and its flags survive the change event. -/
theorem change_base_priority_preserves_flags_witness :
    preprocessChange
        { rootUri := "u:", rootPath := "r", isIgnored := fun _ => false,
          remoteName2Local := fun u => String.mk (u.data.drop 2), fs := fun _ => none,
          openFiles := fun _ => false }
        (fun _ => some "committed")
        { uri := "u:r/a.rb", contentChanges := [{ range := none, text := "fresh" }] }
        [("r/a.rb", { contents := "pending", newlyOpened := true, newlyClosed := false })] =
      Except.ok [("r/a.rb", { contents := "fresh", newlyOpened := true, newlyClosed := false })] :=
  (change_base_priority_preserves_flags
    { rootUri := "u:", rootPath := "r", isIgnored := fun _ => false,
      remoteName2Local := fun u => String.mk (u.data.drop 2), fs := fun _ => none,
      openFiles := fun _ => false }
    (fun _ => some "committed")
    { uri := "u:r/a.rb", contentChanges := [{ range := none, text := "fresh" }] }
    [("r/a.rb", { contents := "pending", newlyOpened := true, newlyClosed := false })]
    "r/a.rb" (by decide) rfl rfl).trans rfl

/-! Filtered events are no-ops. -/

theorem watchman_all_ignored (cfg : LSPConfig) (files : List String) (m : UpdatesMap)
    (h : ∀ f ∈ files, cfg.isIgnored (cfg.rootPath ++ "/" ++ f) = true) :
    files.foldl (watchmanStep cfg) m = m := by
  induction files generalizing m with
  | nil => rfl
  | cons hd tl ih =>
      simp only [List.foldl_cons]
      rw [show watchmanStep cfg m hd = m by
        simp [watchmanStep, h hd (List.mem_cons_self _ _)]]
      exact ih m (fun f hf => h f (List.mem_cons_of_mem _ hf))

theorem preprocessEdit_filtered (cfg : LSPConfig) (initialGS : GlobalState) (m : UpdatesMap)
    (e : SorbetWorkspaceEdit) (h : editFiltered cfg e) :
    preprocessEdit cfg initialGS m e = Except.ok m := by
  cases e with
  | editorOpen p =>
      rcases h with h | h
      · simp [preprocessEdit, preprocessOpen, h]
      · by_cases hs : startsWith p.uri cfg.rootUri <;>
          simp [preprocessEdit, preprocessOpen, hs, h]
  | editorChange p =>
      rcases h with h | h
      · simp [preprocessEdit, preprocessChange, h]
      · by_cases hs : startsWith p.uri cfg.rootUri <;>
          simp [preprocessEdit, preprocessChange, hs, h]
  | editorClose p =>
      rcases h with h | h
      · simp [preprocessEdit, preprocessClose, h]
      · by_cases hs : startsWith p.uri cfg.rootUri <;>
          simp [preprocessEdit, preprocessClose, hs, h]
  | fileSystem q =>
      simp only [preprocessEdit, preprocessWatchman]
      rw [watchman_all_ignored cfg q.files m h]

theorem preprocessEdits_filtered (cfg : LSPConfig) (initialGS : GlobalState) (m : UpdatesMap)
    (edits : List SorbetWorkspaceEdit) (h : ∀ e ∈ edits, editFiltered cfg e) :
    preprocessEdits cfg initialGS m edits = Except.ok m := by
  induction edits with
  | nil => rfl
  | cons hd tl ih =>
      simp only [preprocessEdits,
        preprocessEdit_filtered cfg initialGS m hd (h hd (List.mem_cons_self _ _))]
      exact ih (fun e he => h e (List.mem_cons_of_mem _ he))

/-- Claim C5: committing an empty pending map returns the pipeline
state unchanged and yields the no-commit result whatever the
typechecking primitive is (so the primitive is not invoked); and a
batch containing only out-of-scope or ignored events ends on that same
no-commit path. -/
theorem empty_batch_commits_nothing (runTypechecking : GlobalState → FileUpdates → TypecheckRun)
    (cfg : LSPConfig) (initialGS gs : GlobalState) (msgEpoch : Int)
    (edits : List SorbetWorkspaceEdit)
    (hfiltered : ∀ e ∈ edits, editFiltered cfg e) :
    commitSorbetWorkspaceEdits runTypechecking gs msgEpoch [] = { gs := gs, committed := none } ∧
    handleSorbetWorkspaceEdits cfg runTypechecking initialGS gs msgEpoch edits =
      Except.ok { gs := gs, committed := none } := by
  refine ⟨rfl, ?_⟩
  simp only [handleSorbetWorkspaceEdits,
    preprocessEdits_filtered cfg initialGS [] edits hfiltered]
  rfl

/-- Witness for claim C5: a configuration ignoring every path, a batch
of an open and a filesystem event, and a recording pipeline primitive. -/
theorem empty_batch_commits_nothing_witness :
    commitSorbetWorkspaceEdits (fun g fu => { gs := g, committed := some fu })
        (fun _ => none) 5 [] = { gs := fun _ => none, committed := none } ∧
    handleSorbetWorkspaceEdits
        { rootUri := "u:", rootPath := "r", isIgnored := fun _ => true,
          remoteName2Local := fun u => String.mk (u.data.drop 2), fs := fun _ => none,
          openFiles := fun _ => false }
        (fun g fu => { gs := g, committed := some fu }) (fun _ => none) (fun _ => none) 5
        [SorbetWorkspaceEdit.editorOpen { uri := "u:r/a.rb", text := "X" },
         SorbetWorkspaceEdit.fileSystem { files := ["b.rb"] }] =
      Except.ok { gs := fun _ => none, committed := none } :=
  empty_batch_commits_nothing (fun g fu => { gs := g, committed := some fu })
    { rootUri := "u:", rootPath := "r", isIgnored := fun _ => true,
      remoteName2Local := fun u => String.mk (u.data.drop 2), fs := fun _ => none,
      openFiles := fun _ => false }
    (fun _ => none) (fun _ => none) 5
    [SorbetWorkspaceEdit.editorOpen { uri := "u:r/a.rb", text := "X" },
     SorbetWorkspaceEdit.fileSystem { files := ["b.rb"] }]
    (by
      intro e he
      simp only [List.mem_cons, List.not_mem_nil, or_false] at he
      rcases he with rfl | rfl
      · exact Or.inr rfl
      · intro f hf
        rfl)

/-- Claim C6 (amended): an edit whose computed start offset exceeds
the buffer length fails (std::string::replace raises out_of_range, a
fatal error for the batch, and the failing change event stores no
buffer); but an edit whose start offset is in bounds while its end
offset exceeds the buffer length is not an error: the erased range is
clamped to the end of the buffer and the truncated-patch result is
kept. -/
theorem edit_offsets_error_and_clamp :
    (∀ (s t : String) (r : Range),
        s.data.length < pos2Offset s (r.start.line + 1) (r.start.character + 1) % 2 ^ 32 →
        applyChange s { range := some r, text := t } = Except.error ()) ∧
    (∀ (s t : String) (r : Range),
        pos2Offset s (r.start.line + 1) (r.start.character + 1) % 2 ^ 32 ≤ s.data.length →
        s.data.length < pos2Offset s (r.endPos.line + 1) (r.endPos.character + 1) % 2 ^ 32 →
        applyChange s { range := some r, text := t } =
          Except.ok (String.mk
            (s.data.take (pos2Offset s (r.start.line + 1) (r.start.character + 1) % 2 ^ 32) ++
              t.data))) ∧
    (∀ (cfg : LSPConfig) (initialGS : GlobalState) (changeParams : DidChangeTextDocumentParams)
        (updates : UpdatesMap),
        startsWith changeParams.uri cfg.rootUri = true →
        cfg.isIgnored (cfg.remoteName2Local changeParams.uri) = false →
        applyChanges (getFileContents updates initialGS (cfg.remoteName2Local changeParams.uri))
            changeParams.contentChanges = Except.error () →
        preprocessChange cfg initialGS changeParams updates = Except.error ()) := by
  refine ⟨?_, ?_, ?_⟩
  · intro s t r h
    simp only [applyChange, stringReplace]
    rw [if_pos h]
  · intro s t r hstart hend
    have ha : pos2Offset s (r.start.line + 1) (r.start.character + 1) % 2 ^ 32 < 2 ^ 32 :=
      Nat.mod_lt _ (by norm_num)
    have hb : pos2Offset s (r.endPos.line + 1) (r.endPos.character + 1) % 2 ^ 32 < 2 ^ 32 :=
      Nat.mod_lt _ (by norm_num)
    simp only [applyChange, stringReplace]
    rw [if_neg (by omega)]
    have hidx : pos2Offset s (r.start.line + 1) (r.start.character + 1) % 2 ^ 32 +
        min ((pos2Offset s (r.endPos.line + 1) (r.endPos.character + 1) % 2 ^ 32 + 2 ^ 32 -
            pos2Offset s (r.start.line + 1) (r.start.character + 1) % 2 ^ 32) % 2 ^ 32)
          (s.data.length - pos2Offset s (r.start.line + 1) (r.start.character + 1) % 2 ^ 32) =
        s.data.length := by omega
    rw [hidx, List.drop_length, List.append_nil]
  · intro cfg initialGS changeParams updates hscope hign herr
    simp only [preprocessChange, hscope, hign, Bool.false_eq_true, ite_false, ite_true, herr]

/-- Witness for claim C6 (amended theorem): a start offset past the
end fails, an end offset past the end clamps, and a failing change
event propagates the error out of the handler. -/
theorem edit_offsets_error_and_clamp_witness :
    applyChange "ab"
        { range := some { start := { line := 0, character := 5 },
                          endPos := { line := 0, character := 6 } }, text := "T" } =
      Except.error () ∧
    applyChange "ab"
        { range := some { start := { line := 0, character := 0 },
                          endPos := { line := 0, character := 4 } }, text := "Q" } =
      Except.ok (String.mk
        (("ab" : String).data.take (pos2Offset "ab" (0 + 1) (0 + 1) % 2 ^ 32) ++
          ("Q" : String).data)) ∧
    preprocessChange cfgDisk (fun _ => none)
        { uri := "u:r/b.rb",
          contentChanges := [{ range := some { start := { line := 0, character := 5 },
                                               endPos := { line := 0, character := 6 } },
                               text := "T" }] } [] =
      Except.error () :=
  ⟨edit_offsets_error_and_clamp.1 "ab" "T"
      { start := { line := 0, character := 5 }, endPos := { line := 0, character := 6 } }
      (by decide),
   edit_offsets_error_and_clamp.2.1 "ab" "Q"
      { start := { line := 0, character := 0 }, endPos := { line := 0, character := 4 } }
      (by decide) (by decide),
   edit_offsets_error_and_clamp.2.2 cfgDisk (fun _ => none)
      { uri := "u:r/b.rb",
        contentChanges := [{ range := some { start := { line := 0, character := 5 },
                                             endPos := { line := 0, character := 6 } },
                             text := "T" }] } [] (by decide) rfl rfl⟩

/-- Claim C6 counterexample: on the buffer ab of length 2, the edit
with zero-based range (0,0)-(0,4) computes end offset 4, which lies
outside the buffer, yet applying it is not an error: the erased count
is clamped and the patched buffer Q is produced and kept. -/
theorem out_of_bounds_end_not_fatal :
    pos2Offset "ab" (0 + 1) (4 + 1) % 2 ^ 32 = 4 ∧
    ("ab" : String).data.length = 2 ∧
    applyChange "ab"
        { range := some { start := { line := 0, character := 0 },
                          endPos := { line := 0, character := 4 } }, text := "Q" } =
      Except.ok "Q" :=
  ⟨by decide, by decide, rfl⟩

/-- Claim C2 (code bug): a filesystem event naming a protected path
(open in the editor, no close this batch) with no pending entry must
not create one; the handler instead value-initializes an entry through
operator[] before the protection check, and the commit loop then
materializes that entry as an empty-content file for the protected
path. -/
theorem watchman_creates_entry_for_protected_path :
    preprocessWatchman cfgOpenFile { files := ["a.rb"] } [] =
      [("r/a.rb", { contents := "", newlyOpened := false, newlyClosed := false })] ∧
    commitSorbetWorkspaceEdits (fun g fu => { gs := g, committed := some fu }) (fun _ => none) 7
        (preprocessWatchman cfgOpenFile { files := ["a.rb"] } []) =
      { gs := fun _ => none,
        committed := some
          { updateEpoch := 7,
            updatedFiles := [{ path := "r/a.rb", contents := "", type := FileType.Normal }],
            openedFiles := [], closedFiles := [] } } :=
  ⟨rfl, rfl⟩

/-! Frame lemmas: events that do not name a path leave its pending
entry alone. -/

theorem preprocessEdits_append (cfg : LSPConfig) (initialGS : GlobalState) (m : UpdatesMap)
    (l₁ l₂ : List SorbetWorkspaceEdit) :
    preprocessEdits cfg initialGS m (l₁ ++ l₂) =
      match preprocessEdits cfg initialGS m l₁ with
      | Except.ok m' => preprocessEdits cfg initialGS m' l₂
      | Except.error e => Except.error e := by
  induction l₁ generalizing m with
  | nil => rfl
  | cons hd tl ih =>
      simp only [List.cons_append, preprocessEdits]
      cases hstep : preprocessEdit cfg initialGS m hd with
      | ok m1 => exact ih m1
      | error e => rfl

theorem watchmanStep_frame (cfg : LSPConfig) (m : UpdatesMap) (f path : String)
    (h : cfg.rootPath ++ "/" ++ f ≠ path) :
    (watchmanStep cfg m f).find? path = m.find? path := by
  simp only [watchmanStep]
  split
  · rfl
  · split
    · rw [find?_insert_ne _ _ _ _ h, find?_insert_ne _ _ _ _ h]
    · rw [find?_insert_ne _ _ _ _ h]

theorem watchmanFold_frame (cfg : LSPConfig) (files : List String) (m : UpdatesMap)
    (path : String) (h : ∀ f ∈ files, cfg.rootPath ++ "/" ++ f ≠ path) :
    (files.foldl (watchmanStep cfg) m).find? path = m.find? path := by
  induction files generalizing m with
  | nil => rfl
  | cons hd tl ih =>
      simp only [List.foldl_cons]
      rw [ih (watchmanStep cfg m hd) (fun f hf => h f (List.mem_cons_of_mem _ hf))]
      exact watchmanStep_frame cfg m hd path (h hd (List.mem_cons_self _ _))

theorem preprocessWatchman_frame (cfg : LSPConfig) (q : WatchmanQueryResponse) (m : UpdatesMap)
    (path : String) (h : ∀ f ∈ q.files, cfg.rootPath ++ "/" ++ f ≠ path) :
    (preprocessWatchman cfg q m).find? path = m.find? path :=
  watchmanFold_frame cfg q.files m path h

theorem preprocessEdit_frame (cfg : LSPConfig) (initialGS : GlobalState) (path : String)
    (e : SorbetWorkspaceEdit) (m m' : UpdatesMap)
    (h : ¬ touchesPath cfg path e)
    (hrun : preprocessEdit cfg initialGS m e = Except.ok m') :
    m'.find? path = m.find? path := by
  cases e with
  | editorOpen p =>
      simp only [preprocessEdit] at hrun
      injection hrun with heq
      subst heq
      simp only [preprocessOpen]
      split
      · split
        · rfl
        · exact find?_insert_ne _ _ _ _ h
      · rfl
  | editorChange p =>
      simp only [preprocessEdit, preprocessChange] at hrun
      split at hrun
      · split at hrun
        · injection hrun with heq; subst heq; rfl
        · split at hrun
          · injection hrun with heq
            subst heq
            exact find?_insert_ne _ _ _ _ h
          · exact absurd hrun (by simp)
      · injection hrun with heq; subst heq; rfl
  | editorClose p =>
      simp only [preprocessEdit] at hrun
      injection hrun with heq
      subst heq
      simp only [preprocessClose]
      split
      · split
        · rfl
        · exact find?_insert_ne _ _ _ _ h
      · rfl
  | fileSystem q =>
      simp only [preprocessEdit] at hrun
      injection hrun with heq
      subst heq
      apply preprocessWatchman_frame
      intro f hf
      exact fun hc => h ⟨f, hf, hc⟩

theorem preprocessEdits_frame (cfg : LSPConfig) (initialGS : GlobalState) (path : String)
    (es : List SorbetWorkspaceEdit) (m m' : UpdatesMap)
    (h : ∀ e ∈ es, ¬ touchesPath cfg path e)
    (hrun : preprocessEdits cfg initialGS m es = Except.ok m') :
    m'.find? path = m.find? path := by
  induction es generalizing m with
  | nil =>
      simp only [preprocessEdits] at hrun
      injection hrun with heq
      subst heq
      rfl
  | cons hd tl ih =>
      simp only [preprocessEdits] at hrun
      cases hstep : preprocessEdit cfg initialGS m hd with
      | ok m1 =>
          rw [hstep] at hrun
          exact (ih m1 (fun e he => h e (List.mem_cons_of_mem _ he)) hrun).trans
            (preprocessEdit_frame cfg initialGS path hd m m1 (h hd (List.mem_cons_self _ _)) hstep)
      | error err =>
          rw [hstep] at hrun
          simp at hrun

/-- Claim C1 (amended): in a batch where an open event for a path is
followed later by a close event for the same path (both in-scope and
not ignored) and no event after the close names the path, the pending
entry at commit time has newlyOpened false and newlyClosed true — the
close handler overwrites the whole entry, open flag included — and its
contents are the disk read performed by the close handler. -/
theorem open_then_close_entry (cfg : LSPConfig) (initialGS : GlobalState)
    (preEdits postEdits : List SorbetWorkspaceEdit) (openUri closeUri path text : String)
    (m' : UpdatesMap)
    (hopenMem : SorbetWorkspaceEdit.editorOpen { uri := openUri, text := text } ∈ preEdits)
    (hopenPath : cfg.remoteName2Local openUri = path)
    (hscope : startsWith closeUri cfg.rootUri = true)
    (hclosePath : cfg.remoteName2Local closeUri = path)
    (hign : cfg.isIgnored path = false)
    (hpost : ∀ e ∈ postEdits, ¬ touchesPath cfg path e)
    (hrun : preprocessEdits cfg initialGS []
        (preEdits ++ SorbetWorkspaceEdit.editorClose { uri := closeUri } :: postEdits) =
      Except.ok m') :
    m'.find? path =
      some { contents := readFile path cfg.fs, newlyOpened := false, newlyClosed := true } := by
  rw [preprocessEdits_append] at hrun
  cases hpre : preprocessEdits cfg initialGS [] preEdits with
  | error e => rw [hpre] at hrun; simp at hrun
  | ok m1 =>
      rw [hpre] at hrun
      simp only [preprocessEdits, preprocessEdit] at hrun
      rw [show preprocessClose cfg { uri := closeUri } m1 =
          m1.insert path
            { contents := readFile path cfg.fs, newlyOpened := false, newlyClosed := true } by
        simp [preprocessClose, hscope, hclosePath, hign]] at hrun
      rw [preprocessEdits_frame cfg initialGS path postEdits _ m' hpost hrun,
        find?_insert_self]

/-- Witness for claim C1 (amended theorem): an open of the file with
text X followed by its close, against a disk holding other content. -/
theorem open_then_close_entry_witness :
    (∀ e ∈ ([] : List SorbetWorkspaceEdit), ¬ touchesPath cfgDisk "r/a.rb" e) ∧
    UpdatesMap.find?
        [("r/a.rb", { contents := "disk", newlyOpened := false, newlyClosed := true })]
        "r/a.rb" =
      some { contents := "disk", newlyOpened := false, newlyClosed := true } :=
  ⟨fun e he => absurd he (List.not_mem_nil e),
   open_then_close_entry cfgDisk (fun _ => none)
     [SorbetWorkspaceEdit.editorOpen { uri := "u:r/a.rb", text := "X" }] []
     "u:r/a.rb" "u:r/a.rb" "r/a.rb" "X"
     [("r/a.rb", { contents := "disk", newlyOpened := false, newlyClosed := true })]
     (List.mem_singleton_self _) rfl (by decide) rfl rfl
     (fun e he => absurd he (List.not_mem_nil e)) rfl⟩

/-- Claim C1 counterexample: in the batch open of the file with text X
then close of the same file, the final entry is disk content with
newlyOpened false — not the simultaneous newlyOpened and newlyClosed
the claim requires. -/
theorem open_then_close_counterexample :
    preprocessEdits cfgDisk (fun _ => none) []
        [SorbetWorkspaceEdit.editorOpen { uri := "u:r/a.rb", text := "X" },
         SorbetWorkspaceEdit.editorClose { uri := "u:r/a.rb" }] =
      Except.ok [("r/a.rb", { contents := "disk", newlyOpened := false, newlyClosed := true })] ∧
    ((UpdatesMap.find?
        [("r/a.rb", { contents := "disk", newlyOpened := false, newlyClosed := true })]
        "r/a.rb").map SorbetWorkspaceFileUpdate.newlyOpened) ≠ some true :=
  ⟨rfl, by decide⟩

end SorbetSync
